import Mathlib

/-!
Verification of the image-geometry pipeline of `pretty_maps_decor`
(`src/main.py`): the margin compositor `add_margin` and the hexagon
masker `polycut`.  Images are embedded as pixel grids with natural
number dimensions; the fallible construction of a new image
(`PIL.Image.new`, which rejects negative dimensions) is embedded as an
`Option`; real-valued geometry (hexagon vertices) is embedded over `ℝ`;
the filesystem seen by `polycut` is embedded as the list of existing
file paths, and the external image loader and the external polygon
rasterizer (`PIL.ImageDraw`) are parameters of the embedding.
-/

namespace PrettyMaps

/-- An RGBA pixel: red, green, blue and alpha channel values. -/
structure RGBA where
  r : ℕ
  g : ℕ
  b : ℕ
  a : ℕ

/-- An image: a pixel grid with a fixed width and height.  The pixel
function is total; only values at coordinates inside the bounds are
meaningful.  The pixel type is a parameter (the source is mode-generic:
`add_margin` works for any color mode). -/
structure Img (α : Type) where
  width : ℕ
  height : ℕ
  pix : ℕ → ℕ → α

/-- Embedding of the body of `add_margin` (src/main.py lines 31-36) once
`Image.new` has succeeded: the new canvas has size
`(width + right + left, height + top + bottom)`, is filled with `color`,
and the original image is pasted at offset `(left, top)` (PIL `paste`
clips any part that falls outside the canvas, hence the guard on the
pasted region). -/
def addMarginCore {α : Type} (img : Img α) (top right bottom left : ℤ)
    (color : α) : Img α :=
  { width := ((img.width : ℤ) + right + left).toNat
    height := ((img.height : ℤ) + top + bottom).toNat
    pix := fun x y =>
      if left ≤ (x : ℤ) ∧ (x : ℤ) < left + img.width ∧
          top ≤ (y : ℤ) ∧ (y : ℤ) < top + img.height then
        img.pix ((x : ℤ) - left).toNat ((y : ℤ) - top).toNat
      else color }

/-- Embedding of `add_margin` (src/main.py lines 14-36).
`new_width = width + right + left`, `new_height = height + top + bottom`;
`PIL.Image.new` raises `ValueError` on a negative dimension, embedded
here as `none`. -/
def addMargin {α : Type} (img : Img α) (top right bottom left : ℤ)
    (color : α) : Option (Img α) :=
  if (img.width : ℤ) + right + left < 0 ∨ (img.height : ℤ) + top + bottom < 0 then
    none
  else
    some (addMarginCore img top right bottom left color)

/-- Python's built-in `round` on a rational value: round half to even
(banker's rounding).  The box coordinates `polycut` passes to `crop`
are integers or half-integers, which doubles represent exactly, so
rational arithmetic is a faithful model of the float computation. -/
def pyRound (q : ℚ) : ℤ :=
  if q - ⌊q⌋ = 1 / 2 then (if 2 ∣ ⌊q⌋ then ⌊q⌋ else ⌊q⌋ + 1)
  else round q

/-- Model of `PIL.Image.crop` with box `(x0, y0, x1, y1)`: Pillow
rounds each box coordinate with Python `round` (half to even, via
`map(int, map(round, box))`) and extracts the rectangular region of the
rounded box, so the resulting size is the difference of the rounded
coordinates.  A half-integer box (odd `width - height` in `polycut`)
can therefore produce a crop one pixel wider or narrower than the box
width. -/
def cropImg {α : Type} (im : Img α) (x0 y0 x1 y1 : ℚ) : Img α :=
  { width := (pyRound x1 - pyRound x0).toNat
    height := (pyRound y1 - pyRound y0).toNat
    pix := fun x y => im.pix (x + (pyRound x0).toNat) (y + (pyRound y0).toNat) }

/-- Embedding of the square-crop step of `polycut` (src/main.py lines
63-65): if `width > height`, crop with box
`(min_x, 0, min_x + height, height)` where `min_x = (width - height) / 2`
(Python true division, hence rational coordinates); otherwise the image
is left unchanged. -/
def squareCrop {α : Type} (im : Img α) : Img α :=
  if im.width > im.height then
    cropImg im (((im.width : ℚ) - (im.height : ℚ)) / 2) 0
      (((im.width : ℚ) - (im.height : ℚ)) / 2 + (im.height : ℚ)) (im.height : ℚ)
  else im

/-- Constant `req_width = 17.0` of `polycut` (src/main.py line 72). -/
def reqWidth : ℚ := 17

/-- Constant `page_width = 20.0` of `polycut` (src/main.py line 73). -/
def pageWidth : ℚ := 20

/-- Embedding of `padding_factor` (src/main.py line 74):
`int(np.floor((width * (page_width / req_width - 1.0)) / 2.0))` where
`width` is the post-crop width. -/
def paddingFactor (w : ℕ) : ℤ :=
  ⌊((w : ℚ) * (pageWidth / reqWidth - 1)) / 2⌋

/-- The fill color `(255, 255, 255)` used by `polycut` (src/main.py line
76); on an RGBA canvas PIL completes it with an opaque alpha of 255. -/
def white : RGBA := ⟨255, 255, 255, 255⟩

/-- Embedding of the padding step of `polycut` (src/main.py line 76):
`add_margin(im, pf, pf, pf, pf, (255, 255, 255))` with
`pf = padding_factor`.  The padding factor is non-negative, so
`add_margin` always succeeds here; the `getD` fallback is never taken
(`paddedImage_eq` below). -/
def paddedImage (im : Img RGBA) : Img RGBA :=
  (addMargin (squareCrop im) (paddingFactor (squareCrop im).width)
    (paddingFactor (squareCrop im).width) (paddingFactor (squareCrop im).width)
    (paddingFactor (squareCrop im).width) white).getD (squareCrop im)

/-- Embedding of the alpha-application step of `polycut` (src/main.py
lines 90-92): `new_im_array[:, :, :3] = im_array[:, :, :3]` and
`new_im_array[:, :, 3] = mask * 255`, where `mask` is the single-channel
grid produced by the external rasterizer (`PIL.ImageDraw`, values 0/1). -/
def applyAlpha (im : Img RGBA) (mask : ℕ → ℕ → ℕ) : Img RGBA :=
  { width := im.width
    height := im.height
    pix := fun x y => ⟨(im.pix x y).r, (im.pix x y).g, (im.pix x y).b, mask x y * 255⟩ }

/-- The image-transformation part of `polycut` (src/main.py lines 59-94)
applied to the loaded image: square-crop, pad, and cut the alpha channel
with the rasterized hexagon mask. -/
def polycutImage (im : Img RGBA) (mask : ℕ → ℕ → ℕ) : Img RGBA :=
  applyAlpha (paddedImage im) mask

/-- The ordered extension list of `polycut` (src/main.py line 52). -/
def extensions : List String := [".png", ".jpeg", ".jpg"]

/-- Embedding of the input-file resolution of `polycut` (src/main.py
lines 51-53): `next((file_path + ext for ext in extensions if
os.path.isfile(file_path + ext)), None)` with
`file_path = os.path.join(directory, name)`.  The filesystem is embedded
as the list `fs` of existing file paths. -/
def resolveFile (name directory : String) (fs : List String) : Option String :=
  (extensions.map (fun ext => directory ++ "/" ++ name ++ ext)).find?
    (fun p => fs.contains p)

/-- Observable outcome of a `polycut` call: either the not-found early
return (src/main.py lines 55-57, no file written) or the output file
written at the given path with the given image content (line 101). -/
inductive PolyResult (α : Type) where
  | notFound : PolyResult α
  | written : String → α → PolyResult α

/-- Embedding of `polycut` (src/main.py lines 39-102).  `load` stands
for `Image.open(...).convert("RGBA")` and `mask` for the hexagon mask
produced by the external rasterizer; both are external collaborators
passed as parameters. -/
def polycut (load : String → Img RGBA) (mask : ℕ → ℕ → ℕ)
    (name directory : String) (fs : List String) : PolyResult (Img RGBA) :=
  match resolveFile name directory fs with
  | none => PolyResult.notFound
  | some p =>
      PolyResult.written (directory ++ "/" ++ name ++ "_hex.png")
        (polycutImage (load p) mask)

/-- Embedding of the geometry factor of `polycut` (src/main.py line 70):
`factor = 1.0 / np.sqrt(3.0) if width > height else 1.0 / 2.0`, computed
from the post-crop size. -/
noncomputable def geomFactor (im : Img RGBA) : ℝ :=
  if (squareCrop im).width > (squareCrop im).height then 1 / Real.sqrt 3
  else 1 / 2

/-- Embedding of the hexagon circumradius of `polycut` (src/main.py
lines 61 and 71): `r = dim * factor` where `dim = min(width, height)` is
computed from the loaded image before the crop. -/
noncomputable def hexRadius (im : Img RGBA) : ℝ :=
  ((min im.width im.height : ℕ) : ℝ) * geomFactor im

/-- Embedding of one hexagon vertex of `polycut` (src/main.py lines
80-84): `theta = i * 2.0 * np.pi / 6.0`,
`(r * cos(theta) + padded_width / 2.0,
r * sin(theta) + padded_height * 0.89 / 2.0)`. -/
noncomputable def hexVertex (im : Img RGBA) (i : ℕ) : ℝ × ℝ :=
  (hexRadius im * Real.cos ((i : ℝ) * 2 * Real.pi / 6) +
     ((paddedImage im).width : ℝ) / 2,
   hexRadius im * Real.sin ((i : ℝ) * 2 * Real.pi / 6) +
     ((paddedImage im).height : ℝ) * 0.89 / 2)

/-- Embedding of the polygon list of `polycut` (src/main.py lines
79-84): the vertices appended for `i in range(6)`. -/
noncomputable def hexPolygon (im : Img RGBA) : List (ℝ × ℝ) :=
  (List.range 6).map (hexVertex im)

/-- Concrete image used to witness the `add_margin` contract. -/
def wImg : Img ℕ := ⟨2, 2, fun x y => 10 * x + y⟩

/-- Concrete 1×1 image used for the negative-margin check. -/
def tinyImg : Img ℕ := ⟨1, 1, fun _ _ => 0⟩

/-- Concrete 4×4 opaque red image used in witnesses. -/
def testImg : Img RGBA := ⟨4, 4, fun _ _ => ⟨255, 0, 0, 255⟩⟩

/-- Concrete loader used in witnesses: every path loads `testImg`. -/
def loadTest : String → Img RGBA := fun _ => testImg

/-- Concrete all-zero mask used in witnesses. -/
def maskZero : ℕ → ℕ → ℕ := fun _ _ => 0

/-- Concrete mask used in witnesses: 1 at the origin, 0 elsewhere. -/
def maskTL : ℕ → ℕ → ℕ := fun x y => if x = 0 ∧ y = 0 then 1 else 0

/-- Concrete filesystem in which both `a.png` and `a.jpeg` exist in
directory `d`. -/
def fsBoth : List String := ["d/a.png", "d/a.jpeg"]

/-- Concrete filesystem in which only `a.jpeg` and `a.jpg` exist in
directory `d` (no `.png` candidate). -/
def fsJJ : List String := ["d/a.jpeg", "d/a.jpg"]

/-- Concrete 2×1 image: the crop box is `(0.5, 0, 1.5, 1)`, which
Pillow rounds half-to-even to `(0, 0, 2, 1)`. -/
def wideImg : Img RGBA := ⟨2, 1, fun _ _ => ⟨0, 0, 0, 255⟩⟩

/-- Concrete 4×2 image: even width-height difference, so the crop box
`(1, 0, 3, 2)` is integral and the crop is an exact 2×2 square. -/
def wideEvenImg : Img RGBA := ⟨4, 2, fun _ _ => ⟨0, 0, 0, 255⟩⟩

/-- C1: for every image and non-negative margins, `add_margin` returns a
new image of size `(w + l + r, h + t + b)` whose rectangle of size
`(w, h)` at offset `(left, top)` is pixel-identical to the input and
whose pixels outside that rectangle all equal the fill color.  The
embedding is purely functional, so the input image is never mutated:
`add_margin` only builds and returns a fresh image value. -/
theorem addMargin_adds_border {α : Type} (img : Img α) (t r b l : ℕ) (c : α) :
    ∃ res, addMargin img (t : ℤ) (r : ℤ) (b : ℤ) (l : ℤ) c = some res ∧
      res.width = img.width + l + r ∧
      res.height = img.height + t + b ∧
      (∀ x y, x < img.width → y < img.height →
        res.pix (x + l) (y + t) = img.pix x y) ∧
      (∀ x y, x < res.width → y < res.height →
        (x < l ∨ l + img.width ≤ x ∨ y < t ∨ t + img.height ≤ y) →
        res.pix x y = c) := by
  refine ⟨addMarginCore img t r b l c, ?_, by simp [addMarginCore]; omega,
    by simp [addMarginCore]; omega, ?_, ?_⟩
  · unfold addMargin
    rw [if_neg]
    push_neg
    constructor <;> omega
  · intro x y hx hy
    show (if _ ∧ _ ∧ _ ∧ _ then _ else c) = img.pix x y
    rw [if_pos ⟨by omega, by omega, by omega, by omega⟩]
    have h1 : (((x + l : ℕ) : ℤ) - (l : ℤ)).toNat = x := by omega
    have h2 : (((y + t : ℕ) : ℤ) - (t : ℤ)).toNat = y := by omega
    rw [h1, h2]
  · intro x y hx hy hout
    show (if _ ∧ _ ∧ _ ∧ _ then _ else c) = c
    rw [if_neg]
    rintro ⟨h1, h2, h3, h4⟩
    rcases hout with h | h | h | h <;> omega

/-- Witness for C1: a 2×2 image with all four margins equal to 1; the
pasted pixel at (1,1) equals the original pixel at (0,0) and the corner
pixel (0,0) is the fill color. -/
theorem addMargin_adds_border_witness :
    ∃ res, addMargin wImg (1 : ℤ) 1 1 1 99 = some res ∧
      res.width = 4 ∧ res.height = 4 ∧
      res.pix 1 1 = wImg.pix 0 0 ∧ res.pix 0 0 = 99 := by
  obtain ⟨res, h0, hw, hh, hin, hout⟩ := addMargin_adds_border wImg 1 1 1 1 99
  refine ⟨res, h0, by simpa [wImg] using hw, by simpa [wImg] using hh, ?_, ?_⟩
  · simpa using hin 0 0 (by decide) (by decide)
  · exact hout 0 0 (by simp [wImg] at hw; omega) (by simp [wImg] at hh; omega)
      (Or.inl (by decide))

/-- C9: for some image and some negative margin, `add_margin` does not
silently return a well-formed image: with a 1×1 input and `top = -2` the
computed height `1 + (-2) + 0` is negative, so image construction fails
(`PIL.Image.new` raises `ValueError`; embedded as `none`).  This is the
fail-fast behavior the claim requires on a negative-margin precondition
violation. -/
theorem addMargin_negative_margin_fails :
    (-2 : ℤ) < 0 ∧ addMargin tinyImg (-2) 0 0 0 7 = none := by
  exact ⟨by decide, rfl⟩

/-- The padding factor is non-negative: the bleed ratio
`page_width / req_width - 1 = 3/17` is positive. -/
theorem paddingFactor_nonneg (w : ℕ) : 0 ≤ paddingFactor w := by
  have h : (pageWidth / reqWidth - 1 : ℚ) = 3 / 17 := by
    norm_num [pageWidth, reqWidth]
  unfold paddingFactor
  rw [h]
  exact Int.floor_nonneg.mpr (by positivity)

/-- Python rounding of an exact integer is that integer. -/
theorem pyRound_intCast (n : ℤ) : pyRound ((n : ℤ) : ℚ) = n := by
  unfold pyRound
  rw [Int.floor_intCast]
  rw [if_neg (by norm_num)]
  exact round_intCast n

/-- Size of the square-crop result when the width-height difference is
even (so the crop box is integral and rounding is exact): the width
becomes `min width height` and the height is unchanged. -/
theorem squareCrop_size_of_even {α : Type} (im : Img α)
    (hev : (im.width - im.height) % 2 = 0) :
    (squareCrop im).width = min im.width im.height ∧
    (squareCrop im).height = im.height := by
  unfold squareCrop
  split
  · rename_i hwh
    have hk : im.width = im.height + 2 * ((im.width - im.height) / 2) := by omega
    set k := (im.width - im.height) / 2 with hkdef
    have hb0 : ((im.width : ℚ) - (im.height : ℚ)) / 2 = (((k : ℤ)) : ℚ) := by
      rw [hk]
      push_cast
      ring
    have hb1 : ((im.width : ℚ) - (im.height : ℚ)) / 2 + (im.height : ℚ) =
        (((k + im.height : ℤ)) : ℚ) := by
      rw [hb0]
      push_cast
      ring
    constructor
    · show (pyRound (((im.width : ℚ) - (im.height : ℚ)) / 2 + (im.height : ℚ)) -
        pyRound (((im.width : ℚ) - (im.height : ℚ)) / 2)).toNat = _
      rw [hb1, hb0, pyRound_intCast, pyRound_intCast]
      omega
    · show (pyRound ((im.height : ℚ)) - pyRound ((0 : ℚ))).toNat = im.height
      rw [show ((im.height : ℚ)) = (((im.height : ℤ)) : ℚ) by push_cast; ring,
        show ((0 : ℚ)) = (((0 : ℤ)) : ℚ) by norm_num,
        pyRound_intCast, pyRound_intCast]
      omega
  · rename_i hwh
    exact ⟨by omega, rfl⟩

/-- The padding step never takes the `getD` fallback: `add_margin`
always succeeds there because the padding factor is non-negative. -/
theorem paddedImage_eq (im : Img RGBA) :
    paddedImage im = addMarginCore (squareCrop im)
      (paddingFactor (squareCrop im).width) (paddingFactor (squareCrop im).width)
      (paddingFactor (squareCrop im).width) (paddingFactor (squareCrop im).width)
      white := by
  have hpf := paddingFactor_nonneg (squareCrop im).width
  unfold paddedImage addMargin
  rw [if_neg (by push_neg; omega)]
  rfl

/-- C5: with `dim = min(width, height)` of the loaded image, if
`width > height` the image is replaced by the centered crop with box
`((width - dim) / 2, 0, (width - dim) / 2 + dim, height)`, and if
`height >= width` no crop is performed, so the image may remain taller
than wide. -/
theorem polycut_square_crop {α : Type} (im : Img α) :
    squareCrop im =
      if im.width > im.height then
        cropImg im (((im.width : ℚ) - ((min im.width im.height : ℕ) : ℚ)) / 2) 0
          (((im.width : ℚ) - ((min im.width im.height : ℕ) : ℚ)) / 2 +
            ((min im.width im.height : ℕ) : ℚ)) (im.height : ℚ)
      else im := by
  by_cases h : im.width > im.height
  · rw [if_pos h]
    unfold squareCrop
    rw [if_pos h, Nat.min_eq_right (Nat.le_of_lt h)]
  · rw [if_neg h]
    unfold squareCrop
    rw [if_neg h]

/-- C6: the geometry factor equals `1 / √3` if the post-crop width
exceeds the post-crop height and `1 / 2` otherwise, and the hexagon
circumradius equals `dim * factor` where `dim = min(width, height)` of
the image as loaded, before the crop. -/
theorem polycut_geometry_factor (im : Img RGBA) :
    geomFactor im =
      (if (squareCrop im).width > (squareCrop im).height then 1 / Real.sqrt 3
       else 1 / 2) ∧
    hexRadius im = ((min im.width im.height : ℕ) : ℝ) * geomFactor im :=
  ⟨rfl, rfl⟩

/-- Counterexample to C10 as stated: on a 2×1 input the crop box is
`(0.5, 0, 1.5, 1)`, which Pillow rounds half-to-even to `(0, 0, 2, 1)`,
so the post-crop width 2 exceeds the post-crop height 1, the `1 / √3`
branch is taken, and the circumradius `1 / √3` differs from
`min(w, h) / 2 = 1 / 2`. -/
theorem polycut_sqrt3_branch_reachable :
    (squareCrop wideImg).width = 2 ∧ (squareCrop wideImg).height = 1 ∧
    ¬ (squareCrop wideImg).width ≤ (squareCrop wideImg).height ∧
    geomFactor wideImg = 1 / Real.sqrt 3 ∧
    hexRadius wideImg ≠ ((min wideImg.width wideImg.height : ℕ) : ℝ) / 2 := by
  have hbox : squareCrop wideImg = cropImg wideImg (1 / 2 : ℚ) 0 (3 / 2 : ℚ) 1 := by
    unfold squareCrop
    rw [if_pos (by decide)]
    norm_num [wideImg]
  have hf12 : (⌊(1 / 2 : ℚ)⌋ : ℤ) = 0 := by
    rw [Int.floor_eq_iff]; norm_num
  have hf32 : (⌊(3 / 2 : ℚ)⌋ : ℤ) = 1 := by
    rw [Int.floor_eq_iff]; norm_num
  have hp12 : pyRound (1 / 2 : ℚ) = 0 := by
    unfold pyRound
    rw [hf12, if_pos (by norm_num), if_pos (by decide)]
  have hp32 : pyRound (3 / 2 : ℚ) = 2 := by
    unfold pyRound
    rw [hf32, if_pos (by norm_num), if_neg (by decide)]
    decide
  have hp0 : pyRound (0 : ℚ) = 0 := by
    rw [show (0 : ℚ) = (((0 : ℤ)) : ℚ) by norm_num, pyRound_intCast]
  have hp1 : pyRound (1 : ℚ) = 1 := by
    rw [show (1 : ℚ) = (((1 : ℤ)) : ℚ) by norm_num, pyRound_intCast]
  have hw : (squareCrop wideImg).width = 2 := by
    rw [hbox]
    show (pyRound (3 / 2 : ℚ) - pyRound (1 / 2 : ℚ)).toNat = 2
    rw [hp32, hp12]
    rfl
  have hh : (squareCrop wideImg).height = 1 := by
    rw [hbox]
    show (pyRound (1 : ℚ) - pyRound (0 : ℚ)).toNat = 1
    rw [hp1, hp0]
    rfl
  have hfac : geomFactor wideImg = 1 / Real.sqrt 3 := by
    unfold geomFactor
    rw [hw, hh]
    rw [if_pos (by norm_num)]
  refine ⟨hw, hh, by rw [hw, hh]; omega, hfac, ?_⟩
  have hmin : min wideImg.width wideImg.height = 1 := by decide
  have hr : hexRadius wideImg = 1 / Real.sqrt 3 := by
    unfold hexRadius
    rw [hfac, hmin]
    norm_num
  rw [hr, hmin]
  intro hcon
  have h0 : (0 : ℝ) < Real.sqrt 3 := Real.sqrt_pos.mpr (by norm_num)
  have hcon2 : (1 : ℝ) / Real.sqrt 3 = 1 / 2 := by
    rw [hcon]
    norm_num
  rw [div_eq_div_iff h0.ne' (by norm_num : (2 : ℝ) ≠ 0)] at hcon2
  have hs : Real.sqrt 3 = 2 := by linarith
  have h3 := Real.sq_sqrt (show (0 : ℝ) ≤ 3 by norm_num)
  rw [hs] at h3
  norm_num at h3

/-- C10 amended: for every input whose width-height difference is even
(in particular every input with width ≤ height, where no crop occurs),
the post-crop width does not exceed the post-crop height, the geometry
factor is `1 / 2`, and the hexagon circumradius equals
`min(original width, original height) / 2`.  For an odd difference the
half-to-even rounding of the half-integer crop box can make the
post-crop width exceed the height, so the `1 / √3` branch is reachable
(see the 2×1 counterexample). -/
theorem polycut_factor_half_of_even_diff (im : Img RGBA)
    (hev : (im.width - im.height) % 2 = 0) :
    (squareCrop im).width ≤ (squareCrop im).height ∧
    geomFactor im = 1 / 2 ∧
    hexRadius im = ((min im.width im.height : ℕ) : ℝ) / 2 := by
  obtain ⟨hw, hh⟩ := squareCrop_size_of_even im hev
  have hle : (squareCrop im).width ≤ (squareCrop im).height := by
    rw [hw, hh]; omega
  have hf : geomFactor im = 1 / 2 := by
    unfold geomFactor
    rw [if_neg (by omega)]
  refine ⟨hle, hf, ?_⟩
  unfold hexRadius
  rw [hf]
  ring

/-- Witness for C10 amended: a 4×2 input has even difference 2; the
factor is `1 / 2` and the circumradius is `min(4, 2) / 2 = 1`. -/
theorem polycut_factor_half_of_even_diff_witness :
    (wideEvenImg.width - wideEvenImg.height) % 2 = 0 ∧
    geomFactor wideEvenImg = 1 / 2 ∧
    hexRadius wideEvenImg = ((min wideEvenImg.width wideEvenImg.height : ℕ) : ℝ) / 2 := by
  have h := polycut_factor_half_of_even_diff wideEvenImg (by decide)
  exact ⟨by decide, h.2.1, h.2.2⟩

/-- C2: for every input image on which `polycut` succeeds, the written
output image has dimensions `(w + 2 * pf, h + 2 * pf)` where `(w, h)` is
the post-square-crop size and `pf = padding_factor(w)` (computed from
the post-crop width only); in particular, for a square N×N input the
output is `N + 2 * padding_factor(N)` on each axis.  The last conjunct
shows every successful `polycut` run writes exactly such a
`polycutImage` output. -/
theorem polycut_output_size :
    (∀ (im : Img RGBA) (mask : ℕ → ℕ → ℕ),
      ((polycutImage im mask).width : ℤ) =
        ((squareCrop im).width : ℤ) + 2 * paddingFactor (squareCrop im).width ∧
      ((polycutImage im mask).height : ℤ) =
        ((squareCrop im).height : ℤ) + 2 * paddingFactor (squareCrop im).width) ∧
    (∀ (N : ℕ) (p : ℕ → ℕ → RGBA) (mask : ℕ → ℕ → ℕ),
      ((polycutImage (Img.mk N N p) mask).width : ℤ) =
        (N : ℤ) + 2 * paddingFactor N ∧
      ((polycutImage (Img.mk N N p) mask).height : ℤ) =
        (N : ℤ) + 2 * paddingFactor N) ∧
    (∀ load mask name directory fs p,
      resolveFile name directory fs = some p →
      polycut load mask name directory fs =
        PolyResult.written (directory ++ "/" ++ name ++ "_hex.png")
          (polycutImage (load p) mask)) := by
  have key : ∀ (im : Img RGBA) (mask : ℕ → ℕ → ℕ),
      ((polycutImage im mask).width : ℤ) =
        ((squareCrop im).width : ℤ) + 2 * paddingFactor (squareCrop im).width ∧
      ((polycutImage im mask).height : ℤ) =
        ((squareCrop im).height : ℤ) + 2 * paddingFactor (squareCrop im).width := by
    intro im mask
    have hpf := paddingFactor_nonneg (squareCrop im).width
    have hp : (polycutImage im mask).width = (paddedImage im).width ∧
        (polycutImage im mask).height = (paddedImage im).height := ⟨rfl, rfl⟩
    rw [hp.1, hp.2, paddedImage_eq im]
    constructor
    · show (((((squareCrop im).width : ℤ) + _ + _).toNat : ℤ)) = _
      omega
    · show (((((squareCrop im).height : ℤ) + _ + _).toNat : ℤ)) = _
      omega
  refine ⟨key, ?_, ?_⟩
  · intro N p mask
    have hsq : squareCrop (Img.mk N N p) = Img.mk N N p := by
      unfold squareCrop
      exact if_neg (lt_irrefl N)
    have h := key (Img.mk N N p) mask
    rw [hsq] at h
    exact h
  · intro load mask name directory fs p h
    simp only [polycut]
    rw [h]

/-- Witness for C2: with a filesystem holding `d/a.png`, `polycut`
succeeds and writes the image produced by the pipeline. -/
theorem polycut_output_size_witness :
    resolveFile "a" "d" fsBoth = some "d/a.png" ∧
    polycut loadTest maskZero "a" "d" fsBoth =
      PolyResult.written ("d" ++ "/" ++ "a" ++ "_hex.png")
        (polycutImage (loadTest "d/a.png") maskZero) := by
  have h : resolveFile "a" "d" fsBoth = some "d/a.png" := by decide
  exact ⟨h, polycut_output_size.2.2 loadTest maskZero "a" "d" fsBoth "d/a.png" h⟩

/-- C3: the output image has the same dimensions as the padded
intermediate image, its RGB channel values equal the padded image's RGB
channel values at every pixel, and only the alpha channel differs, set
per pixel to `mask_value * 255` (255 where the rasterized hexagon mask
is 1, 0 where it is 0). -/
theorem polycut_alpha_channel (im : Img RGBA) (mask : ℕ → ℕ → ℕ) (x y : ℕ) :
    (polycutImage im mask).width = (paddedImage im).width ∧
    (polycutImage im mask).height = (paddedImage im).height ∧
    ((polycutImage im mask).pix x y).r = ((paddedImage im).pix x y).r ∧
    ((polycutImage im mask).pix x y).g = ((paddedImage im).pix x y).g ∧
    ((polycutImage im mask).pix x y).b = ((paddedImage im).pix x y).b ∧
    ((polycutImage im mask).pix x y).a = mask x y * 255 ∧
    (mask x y = 1 → ((polycutImage im mask).pix x y).a = 255) ∧
    (mask x y = 0 → ((polycutImage im mask).pix x y).a = 0) := by
  refine ⟨rfl, rfl, rfl, rfl, rfl, rfl, ?_, ?_⟩
  · intro h
    show mask x y * 255 = 255
    rw [h, one_mul]
  · intro h
    show mask x y * 255 = 0
    rw [h, zero_mul]

/-- Witness for C3: with a mask that is 1 at the origin and 0 at (1,0),
the output alpha is 255 at the origin and 0 at (1,0). -/
theorem polycut_alpha_channel_witness :
    maskTL 0 0 = 1 ∧ ((polycutImage testImg maskTL).pix 0 0).a = 255 ∧
    maskTL 1 0 = 0 ∧ ((polycutImage testImg maskTL).pix 1 0).a = 0 := by
  refine ⟨rfl, ?_, rfl, ?_⟩
  · exact (polycut_alpha_channel testImg maskTL 0 0).2.2.2.2.2.2.1 rfl
  · exact (polycut_alpha_channel testImg maskTL 1 0).2.2.2.2.2.2.2 rfl

/-- C7: when no file `<directory>/<name>.<ext>` exists for any extension
in the ordered list `[.png, .jpeg, .jpg]`, `polycut` reports the
not-found condition and returns without writing any output file; the
embedding is a total function, so no exception escapes. -/
theorem polycut_missing_file (load : String → Img RGBA) (mask : ℕ → ℕ → ℕ)
    (name directory : String) (fs : List String)
    (h : ∀ ext ∈ extensions, ¬ (directory ++ "/" ++ name ++ ext) ∈ fs) :
    polycut load mask name directory fs = PolyResult.notFound ∧
    ∀ path img, polycut load mask name directory fs ≠
      PolyResult.written path img := by
  have hres : resolveFile name directory fs = none := by
    unfold resolveFile
    rw [List.find?_eq_none]
    intro p hp
    simp only [List.mem_map] at hp
    obtain ⟨ext, hext, rfl⟩ := hp
    intro hc
    exact h ext hext (List.elem_iff.mp hc)
  constructor
  · simp only [polycut]
    rw [hres]
  · intro path img hcontra
    simp only [polycut] at hcontra
    rw [hres] at hcontra
    exact PolyResult.noConfusion hcontra

/-- Witness for C7: with an empty filesystem, `polycut` returns the
not-found outcome. -/
theorem polycut_missing_file_witness :
    (∀ ext ∈ extensions, ¬ ("d" ++ "/" ++ "a" ++ ext) ∈ ([] : List String)) ∧
    polycut loadTest maskZero "a" "d" [] = PolyResult.notFound := by
  have h : ∀ ext ∈ extensions, ¬ ("d" ++ "/" ++ "a" ++ ext) ∈ ([] : List String) := by
    intro ext _ hc
    exact List.not_mem_nil _ hc
  exact ⟨h, (polycut_missing_file loadTest maskZero "a" "d" [] h).1⟩

/-- Counterexample to C8 as stated: with both `d/a.png` and `d/a.jpeg`
present, file lookup resolves to the first match `d/a.png` and `polycut`
proceeds (it does not return the not-found outcome, i.e. it is not
aborted). -/
theorem polycut_multiple_matches_proceeds :
    "d/a.png" ∈ fsBoth ∧ "d/a.jpeg" ∈ fsBoth ∧
    resolveFile "a" "d" fsBoth = some "d/a.png" ∧
    polycut loadTest maskZero "a" "d" fsBoth ≠ PolyResult.notFound := by
  have h : resolveFile "a" "d" fsBoth = some "d/a.png" := by decide
  refine ⟨by decide, by decide, h, ?_⟩
  intro hcontra
  simp only [polycut] at hcontra
  rw [h] at hcontra
  exact PolyResult.noConfusion hcontra

/-- C8 amended: file lookup tries the fixed ordered extension list
`[.png, .jpeg, .jpg]` and uses the first existing candidate — it
resolves to `<name>.png` when that exists, else to `<name>.jpeg` when
that exists, else to `<name>.jpg` when that exists, and `polycut`
proceeds to write the output with that file even when more than one
candidate exists; the operation is aborted (not found) only when none
of the three candidates exists. -/
theorem polycut_first_match_wins (load : String → Img RGBA)
    (mask : ℕ → ℕ → ℕ) (name directory : String) (fs : List String) :
    ((directory ++ "/" ++ name ++ ".png") ∈ fs →
      resolveFile name directory fs =
        some (directory ++ "/" ++ name ++ ".png") ∧
      polycut load mask name directory fs =
        PolyResult.written (directory ++ "/" ++ name ++ "_hex.png")
          (polycutImage (load (directory ++ "/" ++ name ++ ".png")) mask)) ∧
    (¬ (directory ++ "/" ++ name ++ ".png") ∈ fs →
      (directory ++ "/" ++ name ++ ".jpeg") ∈ fs →
      resolveFile name directory fs =
        some (directory ++ "/" ++ name ++ ".jpeg") ∧
      polycut load mask name directory fs =
        PolyResult.written (directory ++ "/" ++ name ++ "_hex.png")
          (polycutImage (load (directory ++ "/" ++ name ++ ".jpeg")) mask)) ∧
    (¬ (directory ++ "/" ++ name ++ ".png") ∈ fs →
      ¬ (directory ++ "/" ++ name ++ ".jpeg") ∈ fs →
      (directory ++ "/" ++ name ++ ".jpg") ∈ fs →
      resolveFile name directory fs =
        some (directory ++ "/" ++ name ++ ".jpg") ∧
      polycut load mask name directory fs =
        PolyResult.written (directory ++ "/" ++ name ++ "_hex.png")
          (polycutImage (load (directory ++ "/" ++ name ++ ".jpg")) mask)) ∧
    (¬ (directory ++ "/" ++ name ++ ".png") ∈ fs →
      ¬ (directory ++ "/" ++ name ++ ".jpeg") ∈ fs →
      ¬ (directory ++ "/" ++ name ++ ".jpg") ∈ fs →
      polycut load mask name directory fs = PolyResult.notFound) := by
  have hpoly : ∀ p, resolveFile name directory fs = some p →
      polycut load mask name directory fs =
        PolyResult.written (directory ++ "/" ++ name ++ "_hex.png")
          (polycutImage (load p) mask) := by
    intro p hp
    simp only [polycut]
    rw [hp]
  have hmem : ∀ s : String, s ∈ fs → fs.contains s = true :=
    fun s hs => List.elem_iff.mpr hs
  have hnmem : ∀ s : String, ¬ s ∈ fs → ¬ fs.contains s = true :=
    fun s hs hc => hs (List.elem_iff.mp hc)
  refine ⟨?_, ?_, ?_, ?_⟩
  · intro h1
    have hres : resolveFile name directory fs =
        some (directory ++ "/" ++ name ++ ".png") := by
      unfold resolveFile extensions
      simp only [List.map_cons, List.map_nil]
      exact List.find?_cons_of_pos _ (hmem _ h1)
    exact ⟨hres, hpoly _ hres⟩
  · intro h1 h2
    have hres : resolveFile name directory fs =
        some (directory ++ "/" ++ name ++ ".jpeg") := by
      unfold resolveFile extensions
      simp only [List.map_cons, List.map_nil]
      rw [List.find?_cons_of_neg _ (hnmem _ h1)]
      exact List.find?_cons_of_pos _ (hmem _ h2)
    exact ⟨hres, hpoly _ hres⟩
  · intro h1 h2 h3
    have hres : resolveFile name directory fs =
        some (directory ++ "/" ++ name ++ ".jpg") := by
      unfold resolveFile extensions
      simp only [List.map_cons, List.map_nil]
      rw [List.find?_cons_of_neg _ (hnmem _ h1),
        List.find?_cons_of_neg _ (hnmem _ h2)]
      exact List.find?_cons_of_pos _ (hmem _ h3)
    exact ⟨hres, hpoly _ hres⟩
  · intro h1 h2 h3
    have hres : resolveFile name directory fs = none := by
      unfold resolveFile extensions
      simp only [List.map_cons, List.map_nil]
      rw [List.find?_cons_of_neg _ (hnmem _ h1),
        List.find?_cons_of_neg _ (hnmem _ h2),
        List.find?_cons_of_neg _ (hnmem _ h3)]
      rfl
    simp only [polycut]
    rw [hres]

/-- Witness for C8 amended: with `a.png` and `a.jpeg` both present the
lookup resolves to `a.png`; with only `a.jpeg` and `a.jpg` present
(no `.png`) the lookup resolves to `a.jpeg`, the first existing
candidate, and `polycut` writes the output from it. -/
theorem polycut_first_match_wins_witness :
    ("d" ++ "/" ++ "a" ++ ".png") ∈ fsBoth ∧
    resolveFile "a" "d" fsBoth = some ("d" ++ "/" ++ "a" ++ ".png") ∧
    ¬ ("d" ++ "/" ++ "a" ++ ".png") ∈ fsJJ ∧
    ("d" ++ "/" ++ "a" ++ ".jpeg") ∈ fsJJ ∧
    resolveFile "a" "d" fsJJ = some ("d" ++ "/" ++ "a" ++ ".jpeg") ∧
    polycut loadTest maskZero "a" "d" fsJJ =
      PolyResult.written ("d" ++ "/" ++ "a" ++ "_hex.png")
        (polycutImage (loadTest ("d" ++ "/" ++ "a" ++ ".jpeg")) maskZero) := by
  have h1 := (polycut_first_match_wins loadTest maskZero "a" "d" fsBoth).1
    (by decide)
  have h2 := (polycut_first_match_wins loadTest maskZero "a" "d" fsJJ).2.1
    (by decide) (by decide)
  exact ⟨by decide, h1.1, by decide, by decide, h2.1, h2.2⟩

/-- The hexagon circumradius is non-negative: it is a non-negative
dimension times a factor that is `1 / √3` or `1 / 2`. -/
theorem hexRadius_nonneg (im : Img RGBA) : 0 ≤ hexRadius im := by
  unfold hexRadius geomFactor
  split <;> positivity

/-- C4: the hexagon polygon has exactly 6 vertices; vertex `i` lies at
angle `θ_i = i * 2π / 6` with coordinates
`(r * cos θ_i + padded_width / 2, r * sin θ_i + padded_height * 0.89 / 2)`;
every vertex lies at distance `r` from the common center
`(padded_width / 2, padded_height * 0.89 / 2)`; and each vertex is
obtained from the previous one by a rotation of `2π / 6` (60 degrees)
about that center. -/
theorem hexPolygon_vertices (im : Img RGBA) :
    (hexPolygon im).length = 6 ∧
    (∀ i : Fin 6, (hexPolygon im).get? (i : ℕ) =
      some (hexRadius im * Real.cos (((i : ℕ) : ℝ) * 2 * Real.pi / 6) +
              ((paddedImage im).width : ℝ) / 2,
            hexRadius im * Real.sin (((i : ℕ) : ℝ) * 2 * Real.pi / 6) +
              ((paddedImage im).height : ℝ) * 0.89 / 2)) ∧
    (∀ i : ℕ,
      Real.sqrt (((hexVertex im i).1 - ((paddedImage im).width : ℝ) / 2) ^ 2 +
        ((hexVertex im i).2 - ((paddedImage im).height : ℝ) * 0.89 / 2) ^ 2) =
      hexRadius im) ∧
    (∀ i : ℕ,
      (hexVertex im (i + 1)).1 - ((paddedImage im).width : ℝ) / 2 =
        Real.cos (2 * Real.pi / 6) *
          ((hexVertex im i).1 - ((paddedImage im).width : ℝ) / 2) -
        Real.sin (2 * Real.pi / 6) *
          ((hexVertex im i).2 - ((paddedImage im).height : ℝ) * 0.89 / 2) ∧
      (hexVertex im (i + 1)).2 - ((paddedImage im).height : ℝ) * 0.89 / 2 =
        Real.sin (2 * Real.pi / 6) *
          ((hexVertex im i).1 - ((paddedImage im).width : ℝ) / 2) +
        Real.cos (2 * Real.pi / 6) *
          ((hexVertex im i).2 - ((paddedImage im).height : ℝ) * 0.89 / 2)) := by
  refine ⟨?_, ?_, ?_, ?_⟩
  · unfold hexPolygon
    simp
  · intro i
    unfold hexPolygon
    rw [List.get?_map, List.get?_range i.isLt]
    rfl
  · intro i
    have hr := hexRadius_nonneg im
    have hv1 : (hexVertex im i).1 - ((paddedImage im).width : ℝ) / 2 =
        hexRadius im * Real.cos ((i : ℝ) * 2 * Real.pi / 6) := by
      unfold hexVertex
      ring
    have hv2 : (hexVertex im i).2 - ((paddedImage im).height : ℝ) * 0.89 / 2 =
        hexRadius im * Real.sin ((i : ℝ) * 2 * Real.pi / 6) := by
      unfold hexVertex
      ring
    rw [hv1, hv2]
    have hsq : (hexRadius im * Real.cos ((i : ℝ) * 2 * Real.pi / 6)) ^ 2 +
        (hexRadius im * Real.sin ((i : ℝ) * 2 * Real.pi / 6)) ^ 2 =
        hexRadius im ^ 2 := by
      have h := Real.sin_sq_add_cos_sq ((i : ℝ) * 2 * Real.pi / 6)
      nlinarith [h]
    rw [hsq]
    exact Real.sqrt_sq hr
  · intro i
    have hθ : ((i + 1 : ℕ) : ℝ) * 2 * Real.pi / 6 =
        (i : ℝ) * 2 * Real.pi / 6 + 2 * Real.pi / 6 := by
      push_cast
      ring
    constructor
    · show hexRadius im * Real.cos (((i + 1 : ℕ) : ℝ) * 2 * Real.pi / 6) +
        ((paddedImage im).width : ℝ) / 2 - ((paddedImage im).width : ℝ) / 2 = _
      rw [hθ, Real.cos_add]
      unfold hexVertex
      ring
    · show hexRadius im * Real.sin (((i + 1 : ℕ) : ℝ) * 2 * Real.pi / 6) +
        ((paddedImage im).height : ℝ) * 0.89 / 2 -
        ((paddedImage im).height : ℝ) * 0.89 / 2 = _
      rw [hθ, Real.sin_add]
      unfold hexVertex
      ring

end PrettyMaps
